import Mathlib

/-!
Verification of the inventory/transaction core of `src/inventory.py`.

The two tables (`Inventory`, `Transactions`) are modelled as Lean lists of
records; pandas DataFrame rows become structure values, column selections
become `List.map`, boolean-mask filtering becomes `List.filter`, and
`pd.concat(..., ignore_index=True)` becomes list append.  Python's
`datetime.now()` is modelled by passing an explicit clock value `now : Nat`.
A Python operation that raises (the `.index[0]` lookup on an empty selection
in `update_product`) is modelled as returning `none`.
-/

/-- A row of the Inventory table (columns as in `st.session_state.inventory`,
lines 11-22 of `inventory.py`).  `Price` is modelled as a rational number,
`Expiry Date` as an optional string, `Quantity` and `Reorder Level` as
integers. -/
structure Product where
  productId : String
  productName : String
  category : String
  quantity : Int
  price : ℚ
  supplier : String
  location : String
  reorderLevel : Int
  expiryDate : Option String
  status : String
deriving DecidableEq, Repr

/-- A row of the Transactions table (columns as in
`st.session_state.transactions`, lines 25-32 of `inventory.py`).  The
`Date` column is an abstract clock value. -/
structure InvTransaction where
  transactionId : String
  productId : String
  productName : String
  quantity : Int
  transactionType : String
  date : Nat
deriving DecidableEq, Repr

/-- The mutable session state: the two tables held in
`st.session_state.inventory` and `st.session_state.transactions`. -/
structure State where
  inventory : List Product
  transactions : List InvTransaction
deriving DecidableEq, Repr

/-! ### Decimal rendering of transaction sequence numbers

`log_transaction` builds the Transaction ID with the Python format string
`f"T{len(transactions) + 1:03d}"`: the decimal digits of the sequence
number, left-padded with the character 0 to a minimum width of 3, after a
constant tag T.  We render decimals through a fuel-indexed digit function so
that everything reduces in the kernel. -/

/-- Least-significant-first decimal digits of `n`, with fuel (`digitsAux f n`
is the digit list of `n` whenever `n ≤ f`). -/
def digitsAux : Nat → Nat → List Nat
  | _, 0 => []
  | 0, _ + 1 => []
  | f + 1, n + 1 => ((n + 1) % 10) :: digitsAux f ((n + 1) / 10)

/-- Least-significant-first decimal digits of `n` (empty for 0). -/
def decDigits (n : Nat) : List Nat := digitsAux n n

/-- The character list of the decimal numeral of `n`, most significant digit
first (`"0"` for 0, mirroring Python's `str`/format rendering). -/
def numChars (n : Nat) : List Char :=
  if n = 0 then ['0'] else (decDigits n).reverse.map Nat.digitChar

/-- Left-pad a character list with the character 0 to length 3, as the
format specifier `03d` does. -/
def pad3 (s : List Char) : List Char :=
  List.replicate (3 - s.length) '0' ++ s

/-- The generated Transaction ID for sequence number `n`:
`f"T{n:03d}"` from line 59 of `inventory.py`. -/
def transId (n : Nat) : String :=
  String.mk ('T' :: pad3 (numChars n))

/-- `log_transaction(product_id, product_name, quantity, trans_type)`
(lines 57-66): appends one row to Transactions whose ID is derived from the
current row count plus one; `Date` is the current clock.  Always succeeds. -/
def log_transaction (pid pname : String) (qty : Int) (ttype : String)
    (now : Nat) (s : State) : State :=
  { s with transactions := s.transactions ++
      [{ transactionId := transId (s.transactions.length + 1)
         productId := pid
         productName := pname
         quantity := qty
         transactionType := ttype
         date := now }] }

/-- `add_product(product_data)` (lines 35-43): rejects a duplicate
`Product ID` with a failure message and no state change; otherwise appends
the row to Inventory and then logs a Purchase transaction of the initial
quantity, returning a success message. -/
def add_product (p : Product) (now : Nat) (s : State) :
    Bool × String × State :=
  if p.productId ∈ s.inventory.map Product.productId then
    (false, "Product ID already exists", s)
  else
    let s1 : State := { s with inventory := s.inventory ++ [p] }
    let s2 := log_transaction p.productId p.productName p.quantity
      "Purchase" now s1
    (true, "Product added successfully", s2)

/-- The column names of the Inventory table, as keys of an
`update_product` field-updates mapping. -/
inductive Col where
  | productId | productName | category | quantity | price
  | supplier | location | reorderLevel | expiryDate | status
deriving DecidableEq, Repr

/-- A cell value of the Inventory table, tagged by its Python type. -/
inductive Value where
  | str (v : String)
  | int (v : Int)
  | rat (v : ℚ)
  | optStr (v : Option String)
deriving DecidableEq, Repr

/-- One key/value pair of an `update_product` field-updates mapping:
a column name together with a new value of that column's type. -/
inductive FieldUpdate where
  | productId (v : String)
  | productName (v : String)
  | category (v : String)
  | quantity (v : Int)
  | price (v : ℚ)
  | supplier (v : String)
  | location (v : String)
  | reorderLevel (v : Int)
  | expiryDate (v : Option String)
  | status (v : String)
deriving DecidableEq, Repr

/-- The column a field update writes to. -/
def FieldUpdate.field : FieldUpdate → Col
  | .productId _ => .productId
  | .productName _ => .productName
  | .category _ => .category
  | .quantity _ => .quantity
  | .price _ => .price
  | .supplier _ => .supplier
  | .location _ => .location
  | .reorderLevel _ => .reorderLevel
  | .expiryDate _ => .expiryDate
  | .status _ => .status

/-- The value a field update writes. -/
def FieldUpdate.value : FieldUpdate → Value
  | .productId v => .str v
  | .productName v => .str v
  | .category v => .str v
  | .quantity v => .int v
  | .price v => .rat v
  | .supplier v => .str v
  | .location v => .str v
  | .reorderLevel v => .int v
  | .expiryDate v => .optStr v
  | .status v => .str v

/-- Read one cell of an Inventory row. -/
def Product.getField (r : Product) : Col → Value
  | .productId => .str r.productId
  | .productName => .str r.productName
  | .category => .str r.category
  | .quantity => .int r.quantity
  | .price => .rat r.price
  | .supplier => .str r.supplier
  | .location => .str r.location
  | .reorderLevel => .int r.reorderLevel
  | .expiryDate => .optStr r.expiryDate
  | .status => .str r.status

/-- `st.session_state.inventory.at[idx, key] = value` for one key: overwrite
one cell of a row. -/
def applyUpdate (r : Product) : FieldUpdate → Product
  | .productId v => { r with productId := v }
  | .productName v => { r with productName := v }
  | .category v => { r with category := v }
  | .quantity v => { r with quantity := v }
  | .price v => { r with price := v }
  | .supplier v => { r with supplier := v }
  | .location v => { r with location := v }
  | .reorderLevel v => { r with reorderLevel := v }
  | .expiryDate v => { r with expiryDate := v }
  | .status v => { r with status := v }

/-- The `for key, value in updates.items()` loop of `update_product`
(lines 47-48): overwrite each listed cell of the row in order. -/
def applyUpdates (r : Product) (us : List FieldUpdate) : Product :=
  us.foldl applyUpdate r

/-- Overwrite the first row whose `Product ID` matches, or `none` when no
row matches (the Python `.index[0]` on an empty selection raises
`IndexError`; `none` models that crash). -/
def updateFirst (pid : String) (f : Product → Product) :
    List Product → Option (List Product)
  | [] => none
  | r :: rs =>
    if r.productId = pid then some (f r :: rs)
    else (updateFirst pid f rs).map (r :: ·)

/-- `update_product(product_id, updates)` (lines 45-49): looks up the index
of the first row matching `product_id` (raising, i.e. `none`, when there is
none), overwrites the listed cells of that row, and returns a success
message.  Transactions are not touched. -/
def update_product (pid : String) (us : List FieldUpdate) (s : State) :
    Option (String × State) :=
  (updateFirst pid (fun r => applyUpdates r us) s.inventory).map
    (fun inv => ("Product updated successfully", { s with inventory := inv }))

/-- `delete_product(product_id)` (lines 51-55): keep exactly the rows whose
`Product ID` differs, reindex, and return a success message
unconditionally. -/
def delete_product (pid : String) (s : State) : String × State :=
  ("Product deleted successfully",
    { s with inventory := s.inventory.filter (fun r => r.productId ≠ pid) })

/-! ### Seeded session state (lines 10-32) -/

/-- The first pre-seeded Inventory row (line 12 onward). -/
def laptopRow : Product :=
  { productId := "P001", productName := "Laptop", category := "Electronics",
    quantity := 50, price := 80000, supplier := "TechCorp",
    location := "Warehouse A", reorderLevel := 10, expiryDate := none,
    status := "Active" }

/-- The second pre-seeded Inventory row. -/
def mouseRow : Product :=
  { productId := "P002", productName := "Mouse", category := "Accessories",
    quantity := 200, price := 500, supplier := "PeriTech",
    location := "Warehouse B", reorderLevel := 50, expiryDate := none,
    status := "Active" }

/-- The third pre-seeded Inventory row. -/
def keyboardRow : Product :=
  { productId := "P003", productName := "Keyboard", category := "Accessories",
    quantity := 150, price := 1200, supplier := "KeyMaster",
    location := "Warehouse A", reorderLevel := 30, expiryDate := none,
    status := "Active" }

/-- The pre-seeded Inventory rows (lines 11-22). -/
def seedInventory : List Product := [laptopRow, mouseRow, keyboardRow]

/-- The pre-seeded Transactions rows (lines 25-32); the two creation
timestamps are abstract clock values 0 and 1. -/
def seedTransactions : List InvTransaction :=
  [{ transactionId := "T001", productId := "P001", productName := "Laptop",
     quantity := 5, transactionType := "Sale", date := 0 },
   { transactionId := "T002", productId := "P002", productName := "Mouse",
     quantity := 10, transactionType := "Purchase", date := 1 }]

/-- The session state right after initialization. -/
def seedState : State :=
  { inventory := seedInventory, transactions := seedTransactions }

/-! ### Aggregation engine (dashboard, reports, filtered view) -/

/-- Dashboard metric `Total Products` (line 80): `len(inventory)`. -/
def totalProducts (inv : List Product) : Nat := inv.length

/-- Dashboard metric `Total Quantity` (line 82):
`inventory['Quantity'].sum()`. -/
def totalQty (inv : List Product) : Int :=
  (inv.map Product.quantity).sum

/-- The boolean-mask selection
`inventory[inventory['Quantity'] <= inventory['Reorder Level']]` used for
the dashboard `Low Stock Items` metric (lines 85-87) and the low-stock
alert table (lines 107-109). -/
def dashboardLowStock (inv : List Product) : List Product :=
  inv.filter (fun r => r.quantity ≤ r.reorderLevel)

/-- Dashboard metric `Low Stock Items` (line 88): row count of the
low-stock selection. -/
def lowStockCount (inv : List Product) : Nat :=
  (dashboardLowStock inv).length

/-- Dashboard metric `Total Value` (line 90):
`(inventory['Quantity'] * inventory['Price']).sum()`. -/
def totalValue (inv : List Product) : ℚ :=
  (inv.map (fun r => (r.quantity : ℚ) * r.price)).sum

/-- The selection of the `Low Stock Report` (lines 269-271), transcribed
from its own occurrence of the boolean mask. -/
def reportLowStock (inv : List Product) : List Product :=
  inv.filter (fun r => r.quantity ≤ r.reorderLevel)

/-- Lower-case a character list (`case=False` handling). -/
def lowerChars (s : String) : List Char :=
  s.data.map Char.toLower

/-- Whether `needle` occurs as a contiguous run inside `haystack`. -/
def charsContain (haystack needle : List Char) : Bool :=
  match haystack with
  | [] => needle.isEmpty
  | _ :: cs => needle.isPrefixOf haystack || charsContain cs needle

/-- Pattern prefix match for the regex fragment whose only metacharacter
is `.`: the pattern consumed against the front of the text, `.` matching
any single character, every other character matching itself. -/
def patPrefixMatch : List Char → List Char → Bool
  | [], _ => true
  | _ :: _, [] => false
  | p :: ps, c :: cs => (p == '.' || p == c) && patPrefixMatch ps cs

/-- `re.search` containment for the same fragment: does the pattern match
starting at some position of the text? -/
def patSearch (haystack pat : List Char) : Bool :=
  match haystack with
  | [] => pat.isEmpty
  | _ :: cs => patPrefixMatch pat haystack || patSearch cs pat

/-- `filtered_df['Product Name'].str.contains(search_term, case=False)` for
one row (line 222).  pandas interprets the search term as a regular
expression, matched case-insensitively anywhere in the name.  It is
modelled here on the regex fragment whose only metacharacter is `.` (any
single character), all other characters matching literally — faithful to
pandas on that fragment and in particular on every metacharacter-free
term; terms that are invalid regexes raise in pandas and are outside the
model. -/
def nameContains (name term : String) : Bool :=
  patSearch (lowerChars name) (lowerChars term)

/-- Stated from the specification: the search term occurs in the product
name as a case-insensitive substring. -/
def substrContains (name term : String) : Bool :=
  charsContain (lowerChars name) (lowerChars term)

/-- The characters the Python `re` module treats as metacharacters; a term
free of them is matched literally by `str.contains`. -/
def regexMeta : List Char :=
  ['.', '^', '$', '*', '+', '?', '\x7b', '\x7d', '[', ']', '(', ')', '|', '\\']

/-- Whether every character of the search term is matched literally by the
regex engine. -/
def literalTerm (term : String) : Bool :=
  term.data.all (fun c => !(regexMeta.contains c))

/-- The filter pipeline of `view_inventory` (lines 210-222): start from a
copy of Inventory, then filter by membership in each of the three
multiselect lists when that list is non-empty (Python list truthiness), then
filter by the case-insensitive name search when the term is non-empty
(Python string truthiness). -/
def view_inventory (catF locF statF : List String) (term : String)
    (inv : List Product) : List Product :=
  let d0 := inv
  let d1 := if catF.isEmpty then d0
    else d0.filter (fun r => catF.contains r.category)
  let d2 := if locF.isEmpty then d1
    else d1.filter (fun r => locF.contains r.location)
  let d3 := if statF.isEmpty then d2
    else d2.filter (fun r => statF.contains r.status)
  if term.isEmpty then d3
  else d3.filter (fun r => nameContains r.productName term)

/-- Stated from the specification for comparison with `view_inventory`: a
row is kept exactly when it satisfies every supplied filter, a filter that
is not supplied (empty list, empty term) imposing no restriction. -/
def specFilteredView (catF locF statF : List String) (term : String)
    (inv : List Product) : List Product :=
  inv.filter (fun r =>
    (catF.isEmpty || catF.contains r.category) &&
    (locF.isEmpty || locF.contains r.location) &&
    (statF.isEmpty || statF.contains r.status) &&
    (term.isEmpty || substrContains r.productName term))

/-! ### Sequences of calls -/

/-- The arguments of one `log_transaction` call. -/
structure LogCall where
  pid : String
  pname : String
  qty : Int
  ttype : String
  now : Nat
deriving DecidableEq, Repr

/-- Run a sequence of `log_transaction` calls in order. -/
def runLogs (s : State) : List LogCall → State
  | [] => s
  | c :: cs => runLogs (log_transaction c.pid c.pname c.qty c.ttype c.now s) cs

/-- The rows a sequence of `log_transaction` calls appends, starting from a
Transactions table of `base` rows. -/
def newTrans (base : Nat) : List LogCall → List InvTransaction
  | [] => []
  | c :: cs =>
    { transactionId := transId (base + 1), productId := c.pid,
      productName := c.pname, quantity := c.qty,
      transactionType := c.ttype, date := c.now } :: newTrans (base + 1) cs

/-- Run a sequence of `add_product` calls in order (each paired with its
clock value), keeping only the resulting state. -/
def runAdds (s : State) : List (Product × Nat) → State
  | [] => s
  | pc :: rest => runAdds (add_product pc.1 pc.2 s).2.2 rest

/-! ### Decoding generated Transaction IDs

A left inverse of `transId` lets us read the sequence number back out of a
generated ID, which gives both injectivity and the numeric ordering of the
IDs. -/

/-- Value of a digit list, least significant digit first. -/
def ofDigits (ds : List Nat) : Nat :=
  ds.foldr (fun d acc => d + 10 * acc) 0

/-- Numeric value of a digit character. -/
def digitVal (c : Char) : Nat := c.toNat - 48

/-- Numeric value of a most-significant-first digit character list. -/
def charsToNat (l : List Char) : Nat :=
  l.foldl (fun a c => 10 * a + digitVal c) 0

/-- Read the sequence number back out of a generated Transaction ID: drop
the tag, strip the zero padding, decode the decimal digits. -/
def decodeId (id : String) : Nat :=
  charsToNat ((id.data.drop 1).dropWhile (fun c => c == '0'))

/-- Quantity total of a snapshot, written as the spec reads: the sum of
`Quantity` over all rows, 0 for an empty snapshot. -/
def sumQtySpec : List Product → Int
  | [] => 0
  | r :: t => r.quantity + sumQtySpec t

/-- Value total of a snapshot, written as the spec reads: the sum of
`Quantity × Price` over all rows, 0 for an empty snapshot. -/
def sumValueSpec : List Product → ℚ
  | [] => 0
  | r :: t => (r.quantity : ℚ) * r.price + sumValueSpec t

/-- Low-stock row count of a snapshot, written as the spec reads: the
number of rows satisfying the low-stock predicate. -/
def countLowSpec : List Product → Nat
  | [] => 0
  | r :: t => (if r.quantity ≤ r.reorderLevel then 1 else 0) + countLowSpec t

/-- A fresh demonstration product whose ID is not seeded. -/
def demoProduct : Product :=
  { productId := "P004", productName := "Pen Drive", category := "Electronics",
    quantity := 40, price := 900, supplier := "TechCorp",
    location := "Store Front", reorderLevel := 15, expiryDate := none,
    status := "Active" }

/-- A second fresh demonstration product. -/
def demoProduct2 : Product :=
  { productId := "P005", productName := "Desk", category := "Furniture",
    quantity := 12, price := 7500, supplier := "WoodWorks",
    location := "Warehouse B", reorderLevel := 4, expiryDate := none,
    status := "Active" }

/-- A candidate product that reuses the seeded ID `P001` with otherwise
different fields. -/
def dupLaptop : Product :=
  { productId := "P001", productName := "Laptop Pro", category := "Electronics",
    quantity := 9, price := 120000, supplier := "TechCorp",
    location := "Warehouse B", reorderLevel := 3, expiryDate := none,
    status := "Active" }

/-- A row sitting exactly at the low-stock boundary
(`Quantity = Reorder Level`). -/
def boundaryEq : Product :=
  { productId := "P010", productName := "Stapler", category := "Stationery",
    quantity := 30, price := 150, supplier := "OfficeMax",
    location := "Store Front", reorderLevel := 30, expiryDate := none,
    status := "Active" }

/-- A row one unit above the low-stock boundary
(`Quantity = Reorder Level + 1`). -/
def boundaryAbove : Product :=
  { productId := "P011", productName := "Tape", category := "Stationery",
    quantity := 31, price := 40, supplier := "OfficeMax",
    location := "Store Front", reorderLevel := 30, expiryDate := none,
    status := "Active" }

/-- The state reached from the seeded state by
`update_product("P001", {Quantity: 5})`. -/
def seedStateQty5 : State :=
  { inventory := [{ laptopRow with quantity := 5 }, mouseRow, keyboardRow],
    transactions := seedTransactions }

/-- A demonstration sequence of two `log_transaction` calls. -/
def demoLogCalls : List LogCall :=
  [{ pid := "P001", pname := "Laptop", qty := 5, ttype := "Sale", now := 2 },
   { pid := "P003", pname := "Keyboard", qty := 8, ttype := "Purchase",
     now := 3 }]

/-- The Transaction IDs generated by a sequence of `log_transaction`
calls: the ID column of the rows the run appended. -/
def generatedIds (s : State) (calls : List LogCall) : List String :=
  ((runLogs s calls).transactions.drop s.transactions.length).map
    InvTransaction.transactionId

/-! ### Lemmas: digit rendering and decoding -/

theorem ofDigits_digitsAux : ∀ (f n : Nat), n ≤ f → ofDigits (digitsAux f n) = n := by
  intro f
  induction f with
  | zero =>
    intro n h
    have hn : n = 0 := Nat.le_zero.mp h
    subst hn
    rfl
  | succ f ih =>
    intro n h
    match n with
    | 0 => rfl
    | m + 1 =>
      have hq : (m + 1) / 10 ≤ f := by
        have := Nat.div_lt_self (Nat.succ_pos m) (by norm_num : 1 < 10)
        omega
      show (m + 1) % 10 + 10 * ofDigits (digitsAux f ((m + 1) / 10)) = m + 1
      rw [ih _ hq, Nat.mod_add_div]

theorem digitsAux_lt_ten : ∀ (f n : Nat), ∀ d ∈ digitsAux f n, d < 10 := by
  intro f
  induction f with
  | zero =>
    intro n d hd
    match n with
    | 0 => simp [digitsAux] at hd
    | _ + 1 => simp [digitsAux] at hd
  | succ f ih =>
    intro n d hd
    match n with
    | 0 => simp [digitsAux] at hd
    | m + 1 =>
      rcases List.mem_cons.mp hd with h | h
      · subst h; exact Nat.mod_lt _ (by norm_num)
      · exact ih _ _ h

theorem digitsAux_zero (f : Nat) : digitsAux f 0 = [] := by
  cases f <;> rfl

theorem digitsAux_concat : ∀ (f n : Nat), 0 < n → n ≤ f →
    ∃ l d, digitsAux f n = l ++ [d] ∧ d ≠ 0 ∧ d < 10 := by
  intro f
  induction f with
  | zero => intro n h0 h1; omega
  | succ f ih =>
    intro n h0 h1
    match n with
    | m + 1 =>
      cases hq : (m + 1) / 10 with
      | zero =>
        have hlt : m + 1 < 10 := by
          by_contra hge
          have : 0 < (m + 1) / 10 := Nat.div_pos (by omega) (by norm_num)
          omega
        refine ⟨[], (m + 1) % 10, ?_, ?_, Nat.mod_lt _ (by norm_num)⟩
        · show ((m + 1) % 10) :: digitsAux f ((m + 1) / 10) = [] ++ [(m + 1) % 10]
          rw [hq, digitsAux_zero]
          rfl
        · rw [Nat.mod_eq_of_lt hlt]; omega
      | succ k =>
        have hqf : k + 1 ≤ f := by
          have := Nat.div_lt_self (Nat.succ_pos m) (by norm_num : 1 < 10)
          omega
        obtain ⟨l, d, hl, hd0, hd10⟩ := ih (k + 1) (Nat.succ_pos k) hqf
        refine ⟨((m + 1) % 10) :: l, d, ?_, hd0, hd10⟩
        show ((m + 1) % 10) :: digitsAux f ((m + 1) / 10) = _
        rw [hq, hl]
        rfl

theorem digitVal_digitChar : ∀ d < 10, digitVal (Nat.digitChar d) = d := by decide

theorem charsToNat_map_rev (ds : List Nat) (h : ∀ d ∈ ds, d < 10) :
    charsToNat (ds.reverse.map Nat.digitChar) = ofDigits ds := by
  induction ds with
  | nil => rfl
  | cons d t ih =>
    have ht : ∀ x ∈ t, x < 10 := fun x hx => h x (List.mem_cons_of_mem _ hx)
    have hstep : charsToNat ((t.reverse.map Nat.digitChar) ++ [Nat.digitChar d]) =
        10 * charsToNat (t.reverse.map Nat.digitChar) + digitVal (Nat.digitChar d) := by
      simp [charsToNat, List.foldl_append]
    simp only [List.reverse_cons, List.map_append, List.map_cons, List.map_nil]
    rw [hstep, ih ht, digitVal_digitChar d (h d (List.mem_cons_self d t))]
    show 10 * ofDigits t + d = d + 10 * ofDigits t
    omega

theorem dropWhile_replicate_append (p : Char → Bool) (a : Char) (h : p a = true) :
    ∀ (k : Nat) (s : List Char),
      List.dropWhile p (List.replicate k a ++ s) = List.dropWhile p s := by
  intro k
  induction k with
  | zero => intro s; rfl
  | succ k ih =>
    intro s
    rw [List.replicate_succ, List.cons_append, List.dropWhile_cons]
    simp [h, ih s]

theorem digitChar_beq_zero (d : Nat) (h1 : d < 10) (h0 : d ≠ 0) :
    (Nat.digitChar d == '0') = false := by
  revert h0
  revert h1
  revert d
  decide

theorem decodeId_transId (n : Nat) : decodeId (transId n) = n := by
  match n with
  | 0 => decide
  | m + 1 =>
    have hpos : 0 < m + 1 := Nat.succ_pos m
    obtain ⟨l, d, hl, hd0, hd10⟩ := digitsAux_concat (m + 1) (m + 1) hpos (Nat.le_refl _)
    have hnum : numChars (m + 1) = (decDigits (m + 1)).reverse.map Nat.digitChar := by
      simp [numChars]
    have hdata : (transId (m + 1)).data = 'T' :: pad3 (numChars (m + 1)) := rfl
    rw [decodeId, hdata]
    show charsToNat (List.dropWhile (fun c => c == '0')
      (List.replicate (3 - (numChars (m + 1)).length) '0' ++ numChars (m + 1))) = m + 1
    rw [dropWhile_replicate_append _ '0' (by decide)]
    have hrev : (decDigits (m + 1)).reverse = d :: l.reverse := by
      show (digitsAux (m + 1) (m + 1)).reverse = d :: l.reverse
      rw [hl, List.reverse_append]
      rfl
    rw [hnum, hrev]
    rw [List.map_cons, List.dropWhile_cons]
    rw [digitChar_beq_zero d hd10 hd0]
    simp only [Bool.false_eq_true, if_false]
    have hback : Nat.digitChar d :: l.reverse.map Nat.digitChar =
        (decDigits (m + 1)).reverse.map Nat.digitChar := by
      rw [hrev, List.map_cons]
    rw [hback]
    show charsToNat (List.map Nat.digitChar (digitsAux (m + 1) (m + 1)).reverse) = m + 1
    rw [charsToNat_map_rev _ (digitsAux_lt_ten (m + 1) (m + 1))]
    exact ofDigits_digitsAux (m + 1) (m + 1) (Nat.le_refl _)

theorem transId_injective : Function.Injective transId := by
  intro a b h
  have := congrArg decodeId h
  rwa [decodeId_transId, decodeId_transId] at this

/-! ### Lemmas: shape of the Transactions table under `log_transaction` -/

theorem runLogs_transactions : ∀ (calls : List LogCall) (s : State),
    (runLogs s calls).transactions =
      s.transactions ++ newTrans s.transactions.length calls := by
  intro calls
  induction calls with
  | nil => intro s; simp [runLogs, newTrans]
  | cons c cs ih =>
    intro s
    show (runLogs (log_transaction c.pid c.pname c.qty c.ttype c.now s) cs).transactions = _
    rw [ih]
    simp [log_transaction, newTrans]

theorem newTrans_length : ∀ (calls : List LogCall) (base : Nat),
    (newTrans base calls).length = calls.length := by
  intro calls
  induction calls with
  | nil => intro base; rfl
  | cons c cs ih => intro base; simp [newTrans, ih]

theorem newTrans_get : ∀ (calls : List LogCall) (base i : Nat)
    (h : i < (newTrans base calls).length),
    ((newTrans base calls).get ⟨i, h⟩).transactionId = transId (base + i + 1) := by
  intro calls
  induction calls with
  | nil => intro base i h; simp [newTrans] at h
  | cons c cs ih =>
    intro base i h
    match i with
    | 0 => rfl
    | j + 1 =>
      have hj : j < (newTrans (base + 1) cs).length := by
        simpa [newTrans] using h
      have := ih (base + 1) j hj
      have hgoal : ((newTrans base (c :: cs)).get ⟨j + 1, h⟩) =
          ((newTrans (base + 1) cs).get ⟨j, hj⟩) := rfl
      rw [hgoal, this]
      congr 1
      omega

/-! ### Lemmas: `update_product` lookup and cell writes -/

theorem updateFirst_eq_none : ∀ (l : List Product) (pid : String)
    (f : Product → Product),
    updateFirst pid f l = none ↔ ∀ r ∈ l, r.productId ≠ pid := by
  intro l pid f
  induction l with
  | nil => simp [updateFirst]
  | cons r rs ih =>
    by_cases h : r.productId = pid
    · simp [updateFirst, h]
    · simp [updateFirst, h, ih]

theorem updateFirst_eq_some : ∀ (l : List Product) (pid : String)
    (f : Product → Product) (l2 : List Product),
    updateFirst pid f l = some l2 →
    ∃ i r, i < l.length ∧ l[i]? = some r ∧ r.productId = pid ∧
      (∀ j x, j < i → l[j]? = some x → x.productId ≠ pid) ∧
      l2 = l.set i (f r) := by
  intro l pid f
  induction l with
  | nil => intro l2 h; simp [updateFirst] at h
  | cons r rs ih =>
    intro l2 h
    by_cases hr : r.productId = pid
    · rw [updateFirst, if_pos hr] at h
      refine ⟨0, r, Nat.succ_pos _, by simp, hr, ?_, ?_⟩
      · intro j x hj; omega
      · exact (Option.some_inj.mp h).symm
    · rw [updateFirst, if_neg hr] at h
      rcases Option.map_eq_some'.mp h with ⟨a, ha, hl2⟩
      rcases ih a ha with ⟨i, r0, hi, hget, hpid, hfirst, hset⟩
      refine ⟨i + 1, r0, by simpa using Nat.succ_lt_succ hi, by simpa using hget,
        hpid, ?_, ?_⟩
      · intro j x hj hx
        match j with
        | 0 =>
          have hxr : x = r := by
            have := hx
            simp at this
            exact this.symm
          subst hxr; exact hr
        | k + 1 =>
          exact hfirst k x (by omega) (by simpa using hx)
      · rw [← hl2, hset]
        rfl

theorem getField_applyUpdate_ne (r : Product) (u : FieldUpdate) (c : Col)
    (h : u.field ≠ c) : (applyUpdate r u).getField c = r.getField c := by
  cases u <;> cases c <;> first
    | rfl
    | exact absurd rfl h

theorem getField_applyUpdate_self (r : Product) (u : FieldUpdate) :
    (applyUpdate r u).getField u.field = u.value := by
  cases u <;> rfl

theorem applyUpdates_cons (r : Product) (u : FieldUpdate)
    (t : List FieldUpdate) :
    applyUpdates r (u :: t) = applyUpdates (applyUpdate r u) t := rfl

theorem getField_applyUpdates_ne (us : List FieldUpdate) :
    ∀ (r : Product) (c : Col), (∀ u ∈ us, u.field ≠ c) →
    (applyUpdates r us).getField c = r.getField c := by
  induction us with
  | nil => intro r c _; rfl
  | cons u t ih =>
    intro r c h
    rw [applyUpdates_cons, ih _ c (fun w hw => h w (List.mem_cons_of_mem _ hw))]
    exact getField_applyUpdate_ne r u c (h u (List.mem_cons_self u t))

theorem getField_applyUpdates_named (us : List FieldUpdate)
    (hnd : (us.map FieldUpdate.field).Nodup) :
    ∀ u ∈ us, ∀ r : Product,
      (applyUpdates r us).getField u.field = u.value := by
  induction us with
  | nil => intro u hu; exact absurd hu (List.not_mem_nil u)
  | cons v t ih =>
    have hx := List.nodup_cons.mp
      (show (v.field :: t.map FieldUpdate.field).Nodup by simpa using hnd)
    intro u hu r
    rcases List.mem_cons.mp hu with h | h
    · subst h
      rw [applyUpdates_cons]
      have hne : ∀ w ∈ t, w.field ≠ u.field := by
        intro w hw heq
        exact hx.1 (heq ▸ List.mem_map_of_mem FieldUpdate.field hw)
      rw [getField_applyUpdates_ne t (applyUpdate r u) u.field hne]
      exact getField_applyUpdate_self r u
    · rw [applyUpdates_cons]
      exact ih hx.2 u h (applyUpdate r v)

/-! ### Lemmas: filtered view, dashboard sums, ID uniqueness under adds -/

theorem cond_filter (b : Bool) (p : Product → Bool) (d : List Product) :
    (if b = true then d else d.filter p) = d.filter (fun r => b || p r) := by
  cases b with
  | true => simp
  | false => simp

theorem totalQty_eq_spec (inv : List Product) : totalQty inv = sumQtySpec inv := by
  induction inv with
  | nil => rfl
  | cons r t ih => simp [totalQty, sumQtySpec, ← ih]

theorem totalValue_eq_spec (inv : List Product) :
    totalValue inv = sumValueSpec inv := by
  induction inv with
  | nil => rfl
  | cons r t ih => simp [totalValue, sumValueSpec, ← ih]

theorem lowStockCount_eq_spec (inv : List Product) :
    lowStockCount inv = countLowSpec inv := by
  induction inv with
  | nil => rfl
  | cons r t ih =>
    by_cases h : r.quantity ≤ r.reorderLevel
    · simp [lowStockCount, dashboardLowStock, countLowSpec, List.filter_cons, h] at ih ⊢
      omega
    · simp [lowStockCount, dashboardLowStock, countLowSpec, List.filter_cons, h] at ih ⊢
      omega

theorem add_product_ids_nodup (p : Product) (now : Nat) (s : State)
    (h : (s.inventory.map Product.productId).Nodup) :
    (((add_product p now s).2.2).inventory.map Product.productId).Nodup := by
  by_cases hd : p.productId ∈ s.inventory.map Product.productId
  · simpa [add_product, hd] using h
  · have : ((add_product p now s).2.2).inventory = s.inventory ++ [p] := by
      simp [add_product, hd, log_transaction]
    rw [this, List.map_append]
    rw [List.nodup_append]
    refine ⟨h, List.nodup_singleton _, ?_⟩
    intro a ha hb
    have : a = p.productId := by simpa using hb
    subst this
    exact hd ha

theorem runAdds_ids_nodup : ∀ (calls : List (Product × Nat)) (s : State),
    (s.inventory.map Product.productId).Nodup →
    (((runAdds s calls).inventory).map Product.productId).Nodup := by
  intro calls
  induction calls with
  | nil => intro s h; exact h
  | cons pc rest ih =>
    intro s h
    exact ih _ (add_product_ids_nodup pc.1 pc.2 s h)

theorem updateFirst_of_first_match :
    ∀ (l : List Product) (pid : String) (f : Product → Product) (i : Nat)
      (r : Product), l[i]? = some r → r.productId = pid →
      (∀ j x, j < i → l[j]? = some x → x.productId ≠ pid) →
      updateFirst pid f l = some (l.set i (f r)) := by
  intro l
  induction l with
  | nil => intro pid f i r hget; simp at hget
  | cons a t ih =>
    intro pid f i r hget hpid hfirst
    match i with
    | 0 =>
      have har : a = r := by simpa using hget
      subst har
      rw [updateFirst, if_pos hpid]
      rfl
    | k + 1 =>
      have hne : a.productId ≠ pid :=
        hfirst 0 a (Nat.succ_pos k) (by simp)
      rw [updateFirst, if_neg hne]
      have hstep := ih pid f k r (by simpa using hget) hpid
        (fun j x hj hx => hfirst (j + 1) x (by omega) (by simpa using hx))
      rw [hstep]
      rfl

/-! ### The claims -/

/-- C1: for a candidate product `P` whose Product ID is not yet present,
`add_product(P)` returns success with its message, and the new state is
exactly the old one with `P` appended at the end of Inventory and one new
`Purchase` transaction row carrying P's Product ID, Product Name and
initial Quantity appended to Transactions; no other row of either table
changes. -/
theorem add_product_success (p : Product) (now : Nat) (s : State)
    (h : p.productId ∉ s.inventory.map Product.productId) :
    add_product p now s =
      (true, "Product added successfully",
        { inventory := s.inventory ++ [p],
          transactions := s.transactions ++
            [{ transactionId := transId (s.transactions.length + 1),
               productId := p.productId, productName := p.productName,
               quantity := p.quantity, transactionType := "Purchase",
               date := now }] }) := by
  simp [add_product, h, log_transaction]

theorem add_product_success_witness :
    add_product demoProduct 2 seedState =
      (true, "Product added successfully",
        { inventory := seedInventory ++ [demoProduct],
          transactions := seedTransactions ++
            [{ transactionId := transId 3, productId := "P004",
               productName := "Pen Drive", quantity := 40,
               transactionType := "Purchase", date := 2 }] }) :=
  add_product_success demoProduct 2 seedState (by decide)

/-- C2: `add_product` with an already-present Product ID returns the
failure flag with its message and leaves the state (both tables) exactly
unchanged; moreover, along any sequence of `add_product` calls from a
state with pairwise distinct Product IDs, the Inventory IDs stay pairwise
distinct. -/
theorem add_product_duplicate (p : Product) (now : Nat) (s : State)
    (calls : List (Product × Nat)) :
    (p.productId ∈ s.inventory.map Product.productId →
      add_product p now s = (false, "Product ID already exists", s)) ∧
    ((s.inventory.map Product.productId).Nodup →
      (((runAdds s calls).inventory).map Product.productId).Nodup) := by
  constructor
  · intro h
    simp [add_product, h]
  · exact runAdds_ids_nodup calls s

theorem add_product_duplicate_witness :
    add_product dupLaptop 7 seedState =
      (false, "Product ID already exists", seedState) ∧
    (((runAdds seedState
        [(dupLaptop, 7), (demoProduct2, 8)]).inventory).map
      Product.productId).Nodup := by
  have h := add_product_duplicate dupLaptop 7 seedState
    [(dupLaptop, 7), (demoProduct2, 8)]
  exact ⟨h.1 (by decide), h.2 (by decide)⟩

/-- C3: `update_product` against a Product ID matching no Inventory row
does not return a typed `NotFound` failure: the `.index[0]` lookup on the
empty selection raises (modelled by `none`, a crash), evaluated here at
the concrete missing ID `"P999"` on the seeded state. -/
theorem update_product_missing_crashes :
    update_product "P999" [] seedState = none := by decide

/-- C5: a row is selected by the dashboard low-stock mask exactly when it is
in the snapshot with `Quantity ≤ Reorder Level`; the dashboard mask and the
Low Stock Report mask select the same rows; a row with
`Quantity = Reorder Level` is flagged and one with
`Quantity = Reorder Level + 1` is not. -/
theorem low_stock_predicate_spec (inv : List Product) (r : Product) :
    dashboardLowStock inv = reportLowStock inv ∧
    (r ∈ dashboardLowStock inv ↔ r ∈ inv ∧ r.quantity ≤ r.reorderLevel) ∧
    (r.quantity = r.reorderLevel → (r ∈ inv ↔ r ∈ dashboardLowStock inv)) ∧
    (r.quantity = r.reorderLevel + 1 → r ∉ dashboardLowStock inv) := by
  refine ⟨rfl, ?_, ?_, ?_⟩
  · simp [dashboardLowStock, List.mem_filter]
  · intro hq
    simp [dashboardLowStock, List.mem_filter, hq]
  · intro hq hmem
    have hle := (List.mem_filter.mp hmem).2
    simp only [decide_eq_true_eq] at hle
    rw [hq] at hle
    omega

theorem low_stock_predicate_witness :
    boundaryEq ∈ dashboardLowStock [boundaryEq, boundaryAbove] ∧
    boundaryAbove ∉ dashboardLowStock [boundaryEq, boundaryAbove] ∧
    dashboardLowStock [boundaryEq, boundaryAbove] =
      reportLowStock [boundaryEq, boundaryAbove] := by
  have h1 := low_stock_predicate_spec [boundaryEq, boundaryAbove] boundaryEq
  have h2 := low_stock_predicate_spec [boundaryEq, boundaryAbove] boundaryAbove
  exact ⟨(h1.2.2.1 (by decide)).mp (by decide), h2.2.2.2 (by decide), h1.1⟩

/-- C6: a successful `update_product` — whatever fields it touches,
including `Quantity` — returns a state whose Transactions table is exactly
the one it started from: no row appended, none modified. -/
theorem update_product_preserves_transactions (pid : String)
    (us : List FieldUpdate) (s : State) (msg : String) (s2 : State)
    (h : update_product pid us s = some (msg, s2)) :
    s2.transactions = s.transactions := by
  unfold update_product at h
  rcases Option.map_eq_some'.mp h with ⟨inv, _, heq⟩
  have hs2 : s2 = { s with inventory := inv } := (congrArg Prod.snd heq).symm
  rw [hs2]

theorem update_product_preserves_transactions_witness :
    seedStateQty5.transactions = seedState.transactions :=
  update_product_preserves_transactions "P001" [FieldUpdate.quantity 5]
    seedState "Product updated successfully" seedStateQty5 (by decide)

/-- C7: `delete_product(id)` always returns its success message (also when
nothing matches), removes exactly the Inventory rows whose Product ID
matches (keeping the others in order), leaves Transactions untouched, and
is idempotent: a second identical call returns the same message/state. -/
theorem delete_product_spec (pid : String) (s : State) :
    (delete_product pid s).1 = "Product deleted successfully" ∧
    ((delete_product pid s).2).transactions = s.transactions ∧
    (∀ x ∈ ((delete_product pid s).2).inventory, x.productId ≠ pid) ∧
    (∀ x ∈ s.inventory, x.productId ≠ pid →
      x ∈ ((delete_product pid s).2).inventory) ∧
    ((delete_product pid s).2).inventory.Sublist s.inventory ∧
    delete_product pid ((delete_product pid s).2) = delete_product pid s := by
  refine ⟨rfl, rfl, ?_, ?_, ?_, ?_⟩
  · intro x hx
    have := (List.mem_filter.mp hx).2
    simpa using this
  · intro x hx h
    exact List.mem_filter.mpr ⟨hx, by simpa using h⟩
  · exact List.filter_sublist _
  · simp [delete_product, List.filter_filter]

theorem delete_product_spec_witness :
    (delete_product "P002" seedState).1 = "Product deleted successfully" ∧
    delete_product "P002" ((delete_product "P002" seedState).2) =
      delete_product "P002" seedState := by
  have h := delete_product_spec "P002" seedState
  exact ⟨h.1, h.2.2.2.2.2⟩

/-- C8: the four dashboard metrics equal row count, the sum of `Quantity`
(0 when empty), the number of rows satisfying the low-stock predicate, and
the sum of `Quantity × Price` (0 when empty), each computed from the given
snapshot alone. -/
theorem dashboard_metrics_spec (inv : List Product) :
    totalProducts inv = inv.length ∧
    totalQty inv = sumQtySpec inv ∧
    totalQty [] = 0 ∧
    lowStockCount inv = countLowSpec inv ∧
    totalValue inv = sumValueSpec inv ∧
    totalValue [] = 0 :=
  ⟨rfl, totalQty_eq_spec inv, rfl, lowStockCount_eq_spec inv,
    totalValue_eq_spec inv, rfl⟩

theorem dashboard_metrics_witness :
    totalValue seedInventory = sumValueSpec seedInventory ∧
    sumValueSpec seedInventory = 4280000 ∧
    totalQty seedInventory = 400 ∧
    totalProducts seedInventory = 3 ∧
    lowStockCount seedInventory = 0 := by
  have h := dashboard_metrics_spec seedInventory
  refine ⟨h.2.2.2.2.1, ?_, by decide, by decide, by decide⟩
  norm_num [sumValueSpec, seedInventory, laptopRow, mouseRow, keyboardRow]

theorem toLower_ne_dot (c : Char) (h : c.toLower = '.') : c = '.' := by
  unfold Char.toLower at h
  simp only [] at h
  by_cases hc : c.toNat ≥ 65 ∧ c.toNat ≤ 90
  · rw [if_pos hc] at h
    exfalso
    have hval : (Char.ofNat (c.toNat + 32)).toNat = c.toNat + 32 := by
      rw [Char.ofNat, dif_pos (Or.inl (by omega : c.toNat + 32 < 55296))]
      simp [Char.ofNatAux, Char.toNat, UInt32.toNat, BitVec.toNat_ofNatLt]
    rw [h] at hval
    have hdot : ('.').toNat = 46 := by decide
    omega
  · rw [if_neg hc] at h
    exact h

theorem dot_notin_lowerChars (term : String) (h : '.' ∉ term.data) :
    '.' ∉ lowerChars term := by
  intro hmem
  rcases List.mem_map.mp hmem with ⟨c, hc, hlc⟩
  have : c = '.' := toLower_ne_dot c hlc
  subst this
  exact h hc

theorem patPrefixMatch_literal (pat : List Char) (h : '.' ∉ pat) :
    ∀ text, patPrefixMatch pat text = pat.isPrefixOf text := by
  induction pat with
  | nil => intro text; cases text <;> rfl
  | cons p ps ih =>
    intro text
    cases text with
    | nil => rfl
    | cons c cs =>
      have hp : (p == '.') = false :=
        beq_eq_false_iff_ne.mpr (fun hpd => h (hpd ▸ List.mem_cons_self p ps))
      have hps : '.' ∉ ps := fun hm => h (List.mem_cons_of_mem p hm)
      simp only [patPrefixMatch, List.isPrefixOf, hp, Bool.false_or, ih hps cs]

theorem patSearch_literal (pat : List Char) (h : '.' ∉ pat) :
    ∀ haystack, patSearch haystack pat = charsContain haystack pat := by
  intro haystack
  induction haystack with
  | nil => rfl
  | cons c cs ih =>
    simp only [patSearch, charsContain, patPrefixMatch_literal pat h, ih]

theorem nameContains_eq_substr (term : String) (h : literalTerm term = true)
    (name : String) : nameContains name term = substrContains name term := by
  have hdot : '.' ∉ term.data := by
    intro hmem
    have h2 : (!(regexMeta.contains '.')) = true :=
      List.all_eq_true.mp h '.' hmem
    exact absurd h2 (by decide)
  exact patSearch_literal (lowerChars term) (dot_notin_lowerChars term hdot)
    (lowerChars name)

/-- C9, as stated: false on the code.  With search term `"m.use"` — a
regular expression whose `.` matches any character — on a one-row
snapshot, the filter pipeline keeps the row named `Mouse` although
`"m.use"` is not a case-insensitive substring of `"Mouse"`, so the view
differs from the substring-filtered view the claim describes. -/
theorem view_inventory_substring_counterexample :
    view_inventory [] [] [] "m.use" [mouseRow] = [mouseRow] ∧
    substrContains "Mouse" "m.use" = false ∧
    view_inventory [] [] [] "m.use" [mouseRow] ≠
      specFilteredView [] [] [] "m.use" [mouseRow] := by decide

/-- C9 (amended to search terms free of regex metacharacters, which
`str.contains` matches literally): the `view_inventory` filter pipeline
returns exactly the rows satisfying every supplied filter —
category/location/status membership when the corresponding multiselect is
non-empty and case-insensitive substring containment of the search term in
the name when the term is non-empty — with unsupplied filters imposing no
restriction, and the result is a sublist of the snapshot (rows kept in
original order). -/
theorem view_inventory_literal_spec (catF locF statF : List String)
    (term : String) (inv : List Product) (h : literalTerm term = true) :
    view_inventory catF locF statF term inv =
      specFilteredView catF locF statF term inv ∧
    (view_inventory catF locF statF term inv).Sublist inv := by
  have heq : view_inventory catF locF statF term inv =
      specFilteredView catF locF statF term inv := by
    simp only [view_inventory, specFilteredView, cond_filter]
    simp only [List.filter_filter]
    apply List.filter_congr
    intro r _
    rw [nameContains_eq_substr term h r.productName]
    cases catF.isEmpty <;> cases locF.isEmpty <;> cases statF.isEmpty <;>
      cases term.isEmpty <;>
      simp [Bool.and_assoc, Bool.and_comm, Bool.and_left_comm]
  refine ⟨heq, ?_⟩
  rw [heq]
  exact List.filter_sublist _

theorem view_inventory_literal_witness :
    view_inventory ["Accessories"] [] ["Active"] "board" seedInventory =
      specFilteredView ["Accessories"] [] ["Active"] "board" seedInventory ∧
    view_inventory ["Accessories"] [] ["Active"] "board" seedInventory =
      [keyboardRow] := by
  have h := view_inventory_literal_spec ["Accessories"] [] ["Active"] "board"
    seedInventory (by decide)
  exact ⟨h.1, by decide⟩

theorem generatedIds_eq (s : State) (calls : List LogCall) :
    generatedIds s calls =
      (newTrans s.transactions.length calls).map InvTransaction.transactionId := by
  unfold generatedIds
  rw [runLogs_transactions, List.drop_left]

theorem generatedIds_length (s : State) (calls : List LogCall) :
    (generatedIds s calls).length = calls.length := by
  rw [generatedIds_eq, List.length_map, newTrans_length]

theorem generatedIds_getElem (s : State) (calls : List LogCall) (i : Nat)
    (hi : i < calls.length) :
    (generatedIds s calls)[i]? =
      some (transId (s.transactions.length + i + 1)) := by
  rw [generatedIds_eq, List.getElem?_map]
  have hlt : i < (newTrans s.transactions.length calls).length := by
    rw [newTrans_length]; exact hi
  rw [List.getElem?_eq_getElem hlt]
  have hid := newTrans_get calls s.transactions.length i hlt
  rw [List.get_eq_getElem] at hid
  simp [hid]

/-- C4: along any sequence of `log_transaction` calls, the generated
Transaction IDs are, in creation order, exactly `transId` of the
Transactions row count at each append time plus one (tag `T` and the
zero-padded sequence number); their decoded sequence numbers strictly
increase, the IDs themselves are pairwise distinct, and the generated ID
column has no duplicate. -/
theorem log_transaction_ids_spec (s : State) (calls : List LogCall) :
    (generatedIds s calls).length = calls.length ∧
    (∀ i, i < calls.length →
      (generatedIds s calls)[i]? =
        some (transId (s.transactions.length + i + 1))) ∧
    (∀ (i j : Nat) (a b : String), i < j →
      (generatedIds s calls)[i]? = some a →
      (generatedIds s calls)[j]? = some b →
      decodeId a < decodeId b ∧ a ≠ b) ∧
    (generatedIds s calls).Nodup := by
  refine ⟨generatedIds_length s calls, generatedIds_getElem s calls, ?_, ?_⟩
  · intro i j a b hij ha hb
    have hi : i < calls.length := by
      rcases List.getElem?_eq_some.mp ha with ⟨hl, _⟩
      rw [generatedIds_length] at hl
      exact hl
    have hj : j < calls.length := by
      rcases List.getElem?_eq_some.mp hb with ⟨hl, _⟩
      rw [generatedIds_length] at hl
      exact hl
    have ha2 : a = transId (s.transactions.length + i + 1) :=
      Option.some_inj.mp ((generatedIds_getElem s calls i hi).symm.trans ha).symm
    have hb2 : b = transId (s.transactions.length + j + 1) :=
      Option.some_inj.mp ((generatedIds_getElem s calls j hj).symm.trans hb).symm
    subst ha2
    subst hb2
    rw [decodeId_transId, decodeId_transId]
    constructor
    · omega
    · intro heq
      have := transId_injective heq
      omega
  · apply List.nodup_iff_injective_get.mpr
    intro a b heq
    rcases a with ⟨i, hi⟩
    rcases b with ⟨j, hj⟩
    have hi2 : i < calls.length := by
      have := hi
      rwa [generatedIds_length] at this
    have hj2 : j < calls.length := by
      have := hj
      rwa [generatedIds_length] at this
    have hgi : (generatedIds s calls)[i]? =
        some ((generatedIds s calls).get ⟨i, hi⟩) := by
      rw [List.get_eq_getElem]
      exact List.getElem?_eq_getElem hi
    have hgj : (generatedIds s calls)[j]? =
        some ((generatedIds s calls).get ⟨j, hj⟩) := by
      rw [List.get_eq_getElem]
      exact List.getElem?_eq_getElem hj
    rw [generatedIds_getElem s calls i hi2] at hgi
    rw [generatedIds_getElem s calls j hj2] at hgj
    have hti : (generatedIds s calls).get ⟨i, hi⟩ =
        transId (s.transactions.length + i + 1) :=
      (Option.some_inj.mp hgi).symm
    have htj : (generatedIds s calls).get ⟨j, hj⟩ =
        transId (s.transactions.length + j + 1) :=
      (Option.some_inj.mp hgj).symm
    have : transId (s.transactions.length + i + 1) =
        transId (s.transactions.length + j + 1) := by
      rw [← hti, ← htj, heq]
    have := transId_injective this
    apply Fin.ext
    show i = j
    omega

theorem log_transaction_ids_witness :
    generatedIds seedState demoLogCalls = ["T003", "T004"] ∧
    (generatedIds seedState demoLogCalls).Nodup ∧
    decodeId "T003" < decodeId "T004" := by
  have h := log_transaction_ids_spec seedState demoLogCalls
  refine ⟨by decide, h.2.2.2, ?_⟩
  have := (h.2.2.1 0 1 "T003" "T004" (by omega) (by decide) (by decide)).1
  exact this

/-- C10: when row `i` is the first Inventory row matching `product_id`,
`update_product` succeeds and the new Inventory is the old one with only
row `i` replaced by the row with exactly the listed cells overwritten: the
length is unchanged, every other row is unchanged, every column not named
in the updates keeps its old value, and (for updates with pairwise distinct
column names) every named column holds its given new value. -/
theorem update_product_first_row_frame (pid : String)
    (us : List FieldUpdate) (s : State) (i : Nat) (r : Product)
    (hget : s.inventory[i]? = some r) (hpid : r.productId = pid)
    (hfirst : ∀ j x, j < i → s.inventory[j]? = some x →
      x.productId ≠ pid) :
    update_product pid us s =
      some ("Product updated successfully",
        { s with inventory := s.inventory.set i (applyUpdates r us) }) ∧
    (s.inventory.set i (applyUpdates r us)).length = s.inventory.length ∧
    (∀ j, j ≠ i →
      (s.inventory.set i (applyUpdates r us))[j]? = s.inventory[j]?) ∧
    (∀ c : Col, (∀ u ∈ us, u.field ≠ c) →
      (applyUpdates r us).getField c = r.getField c) ∧
    ((us.map FieldUpdate.field).Nodup → ∀ u ∈ us,
      (applyUpdates r us).getField u.field = u.value) := by
  refine ⟨?_, by simp, ?_, ?_, ?_⟩
  · unfold update_product
    rw [updateFirst_of_first_match s.inventory pid _ i r hget hpid hfirst]
    rfl
  · intro j hj
    exact List.getElem?_set_ne (fun h => hj h.symm)
  · intro c hc
    exact getField_applyUpdates_ne us r c hc
  · intro hnd u hu
    exact getField_applyUpdates_named us hnd u hu r

theorem update_product_first_row_frame_witness :
    update_product "P001" [FieldUpdate.quantity 5] seedState =
      some ("Product updated successfully",
        { seedState with inventory := seedState.inventory.set 0 (applyUpdates laptopRow [FieldUpdate.quantity 5]) }) ∧
    (applyUpdates laptopRow [FieldUpdate.quantity 5]).getField
        Col.productName = laptopRow.getField Col.productName := by
  have h := update_product_first_row_frame "P001" [FieldUpdate.quantity 5]
    seedState 0 laptopRow (by decide) (by decide)
    (fun j x hj _ => absurd hj (Nat.not_lt_zero j))
  exact ⟨h.1, h.2.2.2.1 Col.productName (by decide)⟩
